import Mathlib

/-!
Verification of the core of an algorithmic trading bot: signal generation
(src/strategy.py), pre-trade risk checks (src/risk_manager.py), and the
portfolio backtest simulator with its statistics (src/backtester.py).

Numeric modelling: the Python code computes with IEEE doubles, but every
behaviour checked here is decided by exact arithmetic together with the
special values NaN and ±inf (0/0, x/0, comparisons against NaN).  We model
values as `RFloat`: either NaN, +inf, -inf, or an exact rational; the
arithmetic on the special values follows IEEE semantics.  No rounding is
involved in any of the decisions the theorems below depend on.
-/

/-- Model of an IEEE double restricted to exact rationals plus the special
values NaN and plus/minus infinity. -/
inductive RFloat
  | nan
  | pinf
  | ninf
  | fin (q : ℚ)
deriving DecidableEq

namespace RFloat

/-- IEEE negation. -/
def neg : RFloat → RFloat
  | nan => nan
  | pinf => ninf
  | ninf => pinf
  | fin q => fin (-q)

/-- IEEE addition: NaN propagates, inf + (-inf) = NaN. -/
def add : RFloat → RFloat → RFloat
  | nan, _ => nan
  | _, nan => nan
  | pinf, ninf => nan
  | pinf, _ => pinf
  | ninf, pinf => nan
  | ninf, _ => ninf
  | _, pinf => pinf
  | _, ninf => ninf
  | fin a, fin b => fin (a + b)

/-- IEEE subtraction. -/
def sub (a b : RFloat) : RFloat := add a (neg b)

/-- IEEE multiplication: NaN propagates, inf * 0 = NaN. -/
def mul : RFloat → RFloat → RFloat
  | nan, _ => nan
  | _, nan => nan
  | pinf, pinf => pinf
  | pinf, ninf => ninf
  | ninf, pinf => ninf
  | ninf, ninf => pinf
  | pinf, fin q => if q = 0 then nan else if 0 < q then pinf else ninf
  | ninf, fin q => if q = 0 then nan else if 0 < q then ninf else pinf
  | fin q, pinf => if q = 0 then nan else if 0 < q then pinf else ninf
  | fin q, ninf => if q = 0 then nan else if 0 < q then ninf else pinf
  | fin a, fin b => fin (a * b)

/-- IEEE division: x/0 is a signed infinity for x different from 0,
0/0 = NaN, inf/inf = NaN, finite/inf = 0. -/
def div : RFloat → RFloat → RFloat
  | nan, _ => nan
  | _, nan => nan
  | pinf, pinf => nan
  | pinf, ninf => nan
  | ninf, pinf => nan
  | ninf, ninf => nan
  | pinf, fin q => if 0 ≤ q then pinf else ninf
  | ninf, fin q => if 0 ≤ q then ninf else pinf
  | fin _, pinf => fin 0
  | fin _, ninf => fin 0
  | fin a, fin b =>
      if b = 0 then (if 0 < a then pinf else if a < 0 then ninf else nan)
      else fin (a / b)

/-- IEEE ordering test: any comparison against NaN is false. -/
def lt : RFloat → RFloat → Bool
  | nan, _ => false
  | _, nan => false
  | pinf, _ => false
  | ninf, pinf => true
  | ninf, ninf => false
  | ninf, fin _ => true
  | fin _, pinf => true
  | fin _, ninf => false
  | fin a, fin b => decide (a < b)

end RFloat

/-! ## Risk manager (src/risk_manager.py) and its configuration (src/config.py) -/

namespace Config

/-- Config.MAX_POSITION_SIZE = 0.1 (10% of available cash), src/config.py line 41. -/
def MAX_POSITION_SIZE : ℚ := 1 / 10

end Config

/-- Side of a trade, the `trade_type` argument ('buy' / 'sell'). -/
inductive TradeType
  | buy
  | sell
deriving DecidableEq

/-- Outcome reason of `validate_trade`; the source returns a formatted
string per branch, modelled here by one constructor per branch. -/
inductive VReason
  | insufficientCash
  | insufficientShares
  | tradeTooSmall
  | positionTooLarge
  | tradeValid
deriving DecidableEq

/-- Python abs() on an exact rational. -/
def absQ (q : ℚ) : ℚ := if q < 0 then -q else q

/-- RiskManager.validate_trade (src/risk_manager.py lines 97-138):
trade_value = abs(shares * price); reject in order on (a) buy with
trade_value > available_cash, (b) sell with shares > held, (c)
trade_value < 10, (d) buy with resulting position value >
available_cash * max_position_size; otherwise valid. -/
def validate_trade (ticker : String) (shares price : ℚ) (ty : TradeType)
    (availableCash : ℚ) (positions : List (String × ℚ))
    (maxPositionSize : ℚ) : Bool × VReason :=
  let tradeValue := absQ (shares * price)
  let held := (positions.lookup ticker).getD 0
  if ty = TradeType.buy ∧ availableCash < tradeValue then
    (false, VReason.insufficientCash)
  else if ty = TradeType.sell ∧ held < shares then
    (false, VReason.insufficientShares)
  else if tradeValue < 10 then
    (false, VReason.tradeTooSmall)
  else if ty = TradeType.buy ∧ availableCash * maxPositionSize < (held + shares) * price then
    (false, VReason.positionTooLarge)
  else
    (true, VReason.tradeValid)

/-! ## Portfolio simulator, src/backtester.py lines 18-75

The simulator is driven by `data_dict`, a dict of per-instrument frames
(insertion-ordered, hence a list here), carrying a Close column and the
Position (event) column produced by a strategy.  Per timestep it reads the
previous row's Cash, iterates the instruments in order, and writes one
ledger row (Holdings, Cash, Total).
-/

/-- One instrument of `data_dict`: its ticker, Close column and Position
(event) column, aligned on the common index. -/
structure Inst where
  name : String
  close : List ℚ
  pos : List Int
deriving DecidableEq

/-- One ledger row of the `portfolio` frame: Holdings, Cash, Total. -/
structure Row where
  holdings : ℚ
  cash : ℚ
  total : ℚ
deriving DecidableEq

/-- BUY / SELL action of a trade record. -/
inductive TradeAction
  | buy
  | sell
deriving DecidableEq

/-- One entry of the `trades` list (src/backtester.py lines 42-49 and
54-61): date (the timestep index), ticker, action, shares, price, value. -/
structure Trade where
  date : ℕ
  ticker : String
  action : TradeAction
  shares : ℚ
  price : ℚ
  value : ℚ
deriving DecidableEq

/-- Fallback trade used with List.getD. -/
def defaultTrade : Trade := ⟨0, "", TradeAction.buy, 0, 0, 0⟩

/-- Accumulator of the inner per-instrument loop of a timestep: running
cash, holdings value accumulated so far, the updated share counts (in
instrument order), and the trade log. -/
structure StepAcc where
  cash : ℚ
  holdings : ℚ
  newShares : List ℚ
  trades : List Trade

/-- Body of the inner loop (src/backtester.py lines 35-65) for one
instrument at timestep i.  The element carries ((instrument, weight),
current shares).  BUY: allocate running cash * weight, convert to shares
at the close (overwriting the share count), deduct the value, record;
SELL: liquidate all shares at the close, add proceeds, zero the count,
record; otherwise mark to market.  Note on the zero-close corner: the
source's float arithmetic would compute shares = alloc/0.0 = inf and
trade_value = inf*0.0 = NaN there, while the total division on ℚ yields
0 — every theorem below about a BUY or SELL step therefore carries a
hypothesis making the close price read by such an event positive, so no
proof relies on this collapsed path. -/
def stepInst (i : ℕ) (a : StepAcc) (x : (Inst × ℚ) × ℚ) : StepAcc :=
  let inst := x.1.1
  let w := x.1.2
  let sh := x.2
  let p := inst.close.getD i 0
  if inst.pos.getD i 0 = 2 then
    let alloc := a.cash * w
    let sh2 := alloc / p
    let tv := sh2 * p
    { cash := a.cash - tv, holdings := a.holdings + tv,
      newShares := a.newShares ++ [sh2],
      trades := a.trades ++ [⟨i, inst.name, TradeAction.buy, sh2, p, tv⟩] }
  else if inst.pos.getD i 0 = -2 then
    let tv := sh * p
    { cash := a.cash + tv, holdings := a.holdings,
      newShares := a.newShares ++ [(0 : ℚ)],
      trades := a.trades ++ [⟨i, inst.name, TradeAction.sell, sh, p, tv⟩] }
  else
    { cash := a.cash, holdings := a.holdings + sh * p,
      newShares := a.newShares ++ [sh], trades := a.trades }

/-- State carried across timesteps: the ledger rows (all pre-filled with
the initial row, then overwritten in place like the pandas frame), the
per-instrument share counts, and the trade log. -/
structure BTState where
  rows : List Row
  shares : List ℚ
  trades : List Trade

/-- One timestep i >= 1 of the outer loop (src/backtester.py lines
32-68): read Cash of row i-1, run the instrument loop, then write row i
as (holdings_value, current_cash, current_cash + holdings_value). -/
def btStep (insts : List Inst) (weights : List ℚ) (s : BTState) (i : ℕ) : BTState :=
  let prevCash := (s.rows.getD (i - 1) ⟨0, 0, 0⟩).cash
  let a := ((insts.zip weights).zip s.shares).foldl (stepInst i)
      ⟨prevCash, 0, [], s.trades⟩
  { rows := s.rows.set i ⟨a.holdings, a.cash, a.cash + a.holdings⟩,
    shares := a.newShares,
    trades := a.trades }

/-- Number of ledger rows: the length of the first instrument's index
(`next(iter(data_dict.values())).index`). -/
def btRows (insts : List Inst) : ℕ := (insts.headD ⟨"", [], []⟩).close.length

/-- backtester (src/backtester.py lines 18-75): the ledger starts as
Holdings = 0, Cash = Total = initial_cash on every row; rows 1..n-1 are
then rewritten sequentially.  Weights default to the equal weighting
1/len(data_dict) when not passed. -/
def backtester (insts : List Inst) (initialCash : ℚ)
    (weightsOpt : Option (List ℚ)) : BTState :=
  let n := btRows insts
  let weights := weightsOpt.getD
      (List.replicate insts.length (1 / (insts.length : ℚ)))
  (List.range' 1 (n - 1)).foldl (btStep insts weights)
    ⟨List.replicate n ⟨0, initialCash, initialCash⟩,
     List.replicate insts.length 0, []⟩

/-! ## Signal engine, src/strategy.py

Each strategy computes indicator columns, a Signal column in {-1,0,1}
(0 before warm-up), and then derives the Position (event) column by the
shared three statements (lines 64-69, 127-132, 178-183, 227-232):
Position = Signal.diff() — whose entry at index 0 is NaN — followed by
the two masked assignments 1 -> 2 and -1 -> -2.  NaN entries fail both
mask comparisons and stay NaN; we model the column as List (Option Int)
with none for NaN.
-/

/-- Signal.diff(): none (NaN) at index 0, s[i] - s[i-1] afterwards. -/
def diffList (s : List Int) : List (Option Int) :=
  (List.range s.length).map fun i =>
    if i = 0 then none else some (s.getD i 0 - s.getD (i - 1) 0)

/-- data.loc[Position == 1] = 2 (NaN entries are left untouched). -/
def maskBuy (l : List (Option Int)) : List (Option Int) :=
  l.map (fun o => o.map (fun v => if v = 1 then 2 else v))

/-- data.loc[Position == -1] = -2 (NaN entries are left untouched). -/
def maskSell (l : List (Option Int)) : List (Option Int) :=
  l.map (fun o => o.map (fun v => if v = -1 then -2 else v))

/-- The shared Position (event) derivation applied to a Signal column. -/
def makePosition (s : List Int) : List (Option Int) :=
  maskSell (maskBuy (diffList s))

/-- Rolling mean over the trailing window of size w (pandas
rolling(window=w).mean()): defined once a full window of w values is
available, NaN before. -/
def rollMean (ys : List ℚ) (w i : ℕ) : Option ℚ :=
  if 1 ≤ w ∧ w ≤ i + 1 then some (((ys.drop (i + 1 - w)).take w).sum / w)
  else none

/-- SMA column: the rolling mean of the Close column
(src/strategy.py lines 43-44). -/
def smaCol (xs : List ℚ) (w : ℕ) : List (Option ℚ) :=
  (List.range xs.length).map (rollMean xs w)

/-- Comparison of two indicator values: any comparison involving NaN is
false (pandas/numpy semantics). -/
def cmpGT : Option ℚ → Option ℚ → Bool
  | some a, some b => decide (b < a)
  | _, _ => false

/-- SMACrossoverStrategy Signal column (src/strategy.py lines 47-62):
0 everywhere; when len(data) > long_window, entries from index
long_window on become 1 where short SMA > long SMA and -1 otherwise. -/
def smaSignals (xs : List ℚ) (sw lw : ℕ) : List Int :=
  (List.range xs.length).map fun i =>
    if lw < xs.length ∧ lw ≤ i then
      (if cmpGT ((smaCol xs sw).getD i none) ((smaCol xs lw).getD i none)
       then 1 else -1)
    else 0

/-- SMACrossoverStrategy Position (event) column. -/
def smaPosition (xs : List ℚ) (sw lw : ℕ) : List (Option Int) :=
  makePosition (smaSignals xs sw lw)

/-- Close.diff() at index i: NaN (none) at index 0. -/
def deltaAt (xs : List ℚ) (i : ℕ) : Option ℚ :=
  if i = 0 then none else some (xs.getD i 0 - xs.getD (i - 1) 0)

/-- delta.where(delta > 0, 0): positive deltas, 0 elsewhere — the NaN of
index 0 also becomes 0, since NaN > 0 is false (src/strategy.py 102). -/
def gains (xs : List ℚ) : List ℚ :=
  (List.range xs.length).map fun i =>
    match deltaAt xs i with
    | some d => if 0 < d then d else 0
    | none => 0

/-- (-delta.where(delta < 0, 0)): negated negative deltas, 0 elsewhere
(src/strategy.py 103). -/
def losses (xs : List ℚ) : List ℚ :=
  (List.range xs.length).map fun i =>
    match deltaAt xs i with
    | some d => if d < 0 then -d else 0
    | none => 0

/-- Lift a pandas value with NaN for a missing rolling entry. -/
def ofOpt : Option ℚ → RFloat
  | none => RFloat.nan
  | some q => RFloat.fin q

/-- rs = gain / loss (src/strategy.py 104), an IEEE division: positive
gain over zero loss gives +inf, 0/0 gives NaN. -/
def rsAt (xs : List ℚ) (w i : ℕ) : RFloat :=
  RFloat.div (ofOpt (rollMean (gains xs) w i)) (ofOpt (rollMean (losses xs) w i))

/-- RSI = 100 - 100 / (1 + rs) (src/strategy.py 105). -/
def rsiAt (xs : List ℚ) (w i : ℕ) : RFloat :=
  RFloat.sub (RFloat.fin 100)
    (RFloat.div (RFloat.fin 100) (RFloat.add (RFloat.fin 1) (rsAt xs w i)))

/-- The RSI column of RSIStrategy.generate_signals. -/
def rsiCol (xs : List ℚ) (w : ℕ) : List RFloat :=
  (List.range xs.length).map (rsiAt xs w)

/-- RSIStrategy Signal column (src/strategy.py 108-125): 0 everywhere;
when len(data) > window, entries from index window on become 1 where
RSI < oversold, -1 where RSI > overbought, else 0 — NaN RSI values
fail both comparisons and give 0. -/
def rsiSignals (xs : List ℚ) (w : ℕ) (ob os : ℚ) : List Int :=
  (List.range xs.length).map fun i =>
    if w < xs.length ∧ w ≤ i then
      (if RFloat.lt (rsiAt xs w i) (RFloat.fin os) then 1
       else if RFloat.lt (RFloat.fin ob) (rsiAt xs w i) then -1 else 0)
    else 0

/-- RSIStrategy Position (event) column. -/
def rsiPosition (xs : List ℚ) (w : ℕ) (ob os : ℚ) : List (Option Int) :=
  makePosition (rsiSignals xs w ob os)

/-! ## Statistics, src/backtester.py lines 9-16

calculate_metrics derives returns = Total.pct_change().dropna(), guards
on `returns.empty or returns.std() == 0`, and otherwise computes
sharpe = mean/std * sqrt(252) and the max drawdown.  Two modelling
notes, both exact: (a) std (ddof = 1) is the square root of the sample
variance, so std == 0 exactly when the variance is 0, and std is NaN
exactly when the variance is NaN — the guard is therefore stated on the
variance; (b) the numeric sharpe of the non-degenerate branch involves
the irrational sqrt factors, so the result carries the (mean, variance)
pair symbolically in the `computed` constructor — the claims checked
here only concern the degenerate branch and the divisor. -/

/-- Total.pct_change() at index i: NaN at index 0, otherwise the IEEE
quotient (t[i] - t[i-1]) / t[i-1]. -/
def pctChangeAt (t : List ℚ) (i : ℕ) : RFloat :=
  if i = 0 then RFloat.nan
  else RFloat.div (RFloat.fin (t.getD i 0 - t.getD (i - 1) 0))
    (RFloat.fin (t.getD (i - 1) 0))

/-- Total.pct_change().dropna(): NaN entries are removed (infinities,
from a zero previous Total, are kept — as in pandas). -/
def returnsOf (t : List ℚ) : List RFloat :=
  ((List.range t.length).map (pctChangeAt t)).filter
    (fun x => decide (x ≠ RFloat.nan))

/-- Sum of a float series. -/
def rSum (l : List RFloat) : RFloat := l.foldl RFloat.add (RFloat.fin 0)

/-- series.mean() = sum / n (NaN on an empty series: 0/0). -/
def rMean (l : List RFloat) : RFloat :=
  RFloat.div (rSum l) (RFloat.fin (l.length : ℚ))

/-- Sample variance (ddof = 1), the square of series.std():
sum of squared deviations over n - 1; 0/0 = NaN for a single element,
matching std() = NaN there. -/
def rVar (l : List RFloat) : RFloat :=
  RFloat.div
    (rSum (l.map fun x =>
      RFloat.mul (RFloat.sub x (rMean l)) (RFloat.sub x (rMean l))))
    (RFloat.fin ((l.length - 1 : ℕ) : ℚ))

/-- Total.cummax() at index i. -/
def cummaxAt (t : List ℚ) (i : ℕ) : ℚ :=
  (t.take (i + 1)).foldl max (t.getD 0 0)

/-- drawdown = (cummax - Total) / cummax at index i (src/backtester.py
line 14), an IEEE division. -/
def drawdownAt (t : List ℚ) (i : ℕ) : RFloat :=
  RFloat.div (RFloat.fin (cummaxAt t i - t.getD i 0))
    (RFloat.fin (cummaxAt t i))

/-- The drawdown series. -/
def drawdowns (t : List ℚ) : List RFloat :=
  (List.range t.length).map (drawdownAt t)

/-- series.max(): NaN entries are skipped (pandas skipna); NaN if
nothing remains. -/
def maxSkipNa (l : List RFloat) : RFloat :=
  match l.filter (fun x => decide (x ≠ RFloat.nan)) with
  | [] => RFloat.nan
  | h :: tl => tl.foldl (fun a b => if RFloat.lt a b then b else a) h

/-- drawdown.max() if drawdown is nonempty else 0.0. -/
def maxDrawdownOf (t : List ℚ) : RFloat :=
  if drawdowns t = [] then RFloat.fin 0 else maxSkipNa (drawdowns t)

/-- Value of the sharpe_ratio field: 0 in the degenerate branch, and
otherwise the pair (mean, variance) of the returns, standing for
mean / sqrt(variance) * sqrt(252), kept symbolic (irrational). -/
inductive SharpeVal
  | zero
  | computed (mean variance : RFloat)
deriving DecidableEq

/-- calculate_metrics (src/backtester.py lines 9-16): returns
(sharpe_ratio, max_drawdown); both are 0 when the return series is
empty or its std (equivalently its variance) is 0. -/
def calculate_metrics (t : List ℚ) : SharpeVal × RFloat :=
  let rets := returnsOf t
  if rets = [] ∨ rVar rets = RFloat.fin 0 then (SharpeVal.zero, RFloat.fin 0)
  else (SharpeVal.computed (rMean rets) (rVar rets), maxDrawdownOf t)

/-! ## Frame effects of generate_signals, src/strategy.py

Every strategy's generate_signals starts with `data = data.copy()`
(lines 40, 98, 147, 197) and then assigns columns only on the copy.  We
model the observable effect structure: frames live on a heap addressed
by index; copy allocates a fresh frame; each subsequent statement
rewrites one column of the fresh frame in place.  The column writes
reuse the column functions defined above, so the program computes the
real signal data while the theorem below shows the caller's frame is
untouched and the returned frame is a distinct object. -/

/-- A typed column of a data frame. -/
inductive ColV
  | qcol (xs : List ℚ)
  | ocol (xs : List (Option ℚ))
  | icol (xs : List Int)
  | pcol (xs : List (Option Int))
  | rcol (xs : List RFloat)
deriving DecidableEq

/-- A data frame: named columns in insertion order. -/
abbrev Frame := List (String × ColV)

/-- data[name] = col: replace the column when present, append otherwise. -/
def setCol (f : Frame) (n : String) (c : ColV) : Frame :=
  if f.any (fun p => p.1 == n) then
    f.map (fun p => if p.1 == n then (n, c) else p)
  else f ++ [(n, c)]

/-- Read the Close column. -/
def getClose (f : Frame) : List ℚ :=
  match f.lookup "Close" with
  | some (ColV.qcol xs) => xs
  | _ => []

/-- Read the Signal column. -/
def getSignalCol (f : Frame) : List Int :=
  match f.lookup "Signal" with
  | some (ColV.icol xs) => xs
  | _ => []

/-- Read the Position column. -/
def getPositionCol (f : Frame) : List (Option Int) :=
  match f.lookup "Position" with
  | some (ColV.pcol xs) => xs
  | _ => []

/-- generate_signals as a heap program: `data = data.copy()` allocates a
fresh frame at address h.length holding a copy of the input, and every
subsequent statement rewrites one column of that fresh frame in place;
the address of the fresh frame is returned. -/
def runStrategy (writes : List (Frame → Frame)) (h : List Frame)
    (a : ℕ) : List Frame × ℕ :=
  let d := h.length
  let h1 := h ++ [h.getD a []]
  (writes.foldl (fun hh wf => hh.set d (wf (hh.getD d []))) h1, d)

/-- The column-assignment statements of
SMACrossoverStrategy.generate_signals (src/strategy.py lines 43-69), in
source order: SMA_short, SMA_long, Signal = 0, the guarded Signal
assignment, Position = Signal.diff(), and the two masked Position
assignments. -/
def smaWrites (sw lw : ℕ) : List (Frame → Frame) :=
  [fun f => setCol f "SMA_short" (ColV.ocol (smaCol (getClose f) sw)),
   fun f => setCol f "SMA_long" (ColV.ocol (smaCol (getClose f) lw)),
   fun f => setCol f "Signal" (ColV.icol (List.replicate (getClose f).length 0)),
   fun f => if lw < (getClose f).length then
       setCol f "Signal" (ColV.icol (smaSignals (getClose f) sw lw)) else f,
   fun f => setCol f "Position" (ColV.pcol (diffList (getSignalCol f))),
   fun f => setCol f "Position" (ColV.pcol (maskBuy (getPositionCol f))),
   fun f => setCol f "Position" (ColV.pcol (maskSell (getPositionCol f)))]

/-- SMACrossoverStrategy.generate_signals as a heap program. -/
def smaProg (sw lw : ℕ) (h : List Frame) (a : ℕ) : List Frame × ℕ :=
  runStrategy (smaWrites sw lw) h a

/-- The column-assignment statements of RSIStrategy.generate_signals
(src/strategy.py lines 101-132), in source order. -/
def rsiWrites (w : ℕ) (ob os : ℚ) : List (Frame → Frame) :=
  [fun f => setCol f "RSI" (ColV.rcol (rsiCol (getClose f) w)),
   fun f => setCol f "Signal" (ColV.icol (List.replicate (getClose f).length 0)),
   fun f => if w < (getClose f).length then
       setCol f "Signal" (ColV.icol (rsiSignals (getClose f) w ob os)) else f,
   fun f => setCol f "Position" (ColV.pcol (diffList (getSignalCol f))),
   fun f => setCol f "Position" (ColV.pcol (maskBuy (getPositionCol f))),
   fun f => setCol f "Position" (ColV.pcol (maskSell (getPositionCol f)))]

/-- RSIStrategy.generate_signals as a heap program. -/
def rsiProg (w : ℕ) (ob os : ℚ) (h : List Frame) (a : ℕ) : List Frame × ℕ :=
  runStrategy (rsiWrites w ob os) h a

/-- Claim C4 counterexample: with available_cash = 100 and the default
max position size 0.1, a BUY of 0.5 shares at price 5 is indeed rejected
as too small, but a BUY of 5 shares at price 10 (value 50) is NOT
accepted: it is rejected by the maximum-position-size check, since
50 > 100 * 0.1 = 10.  This refutes the claim's second half. -/
theorem cex_validate_trade :
    validate_trade "X" (1/2) 5 TradeType.buy 100 [] Config.MAX_POSITION_SIZE
      = (false, VReason.tradeTooSmall)
    ∧ validate_trade "X" 5 10 TradeType.buy 100 [] Config.MAX_POSITION_SIZE
      = (false, VReason.positionTooLarge) := by
  constructor <;> with_unfolding_all decide

/-- Claim C4 amended: with available_cash = 100 and default risk
parameters, the BUY of 0.5 shares at price 5 is rejected as "Trade too
small"; the BUY of 5 shares at price 10 is rejected as "Position too
large" (50 exceeds available_cash * MAX_POSITION_SIZE = 10); a BUY whose
value is within both bounds, e.g. 1 share at price 10, is accepted. -/
theorem thm_validate_trade :
    validate_trade "X" (1/2) 5 TradeType.buy 100 [] Config.MAX_POSITION_SIZE
      = (false, VReason.tradeTooSmall)
    ∧ validate_trade "X" 5 10 TradeType.buy 100 [] Config.MAX_POSITION_SIZE
      = (false, VReason.positionTooLarge)
    ∧ validate_trade "X" 1 10 TradeType.buy 100 [] Config.MAX_POSITION_SIZE
      = (true, VReason.tradeValid) := by
  refine ⟨?_, ?_, ?_⟩ <;> with_unfolding_all decide

/-! ### Helper lemmas on List.getD / List.set -/

/-- A predicate holding on every member of a list and on the fallback
holds on any getD access. -/
theorem getD_pred {α : Type} (p : α → Prop) (l : List α) (i : ℕ) (d : α)
    (hl : ∀ x ∈ l, p x) (hd : p d) : p (l.getD i d) := by
  induction l generalizing i with
  | nil => simpa [List.getD] using hd
  | cons x xs ih =>
      cases i with
      | zero => exact hl x (by simp)
      | succ n =>
          simpa [List.getD] using ih n (fun y hy => hl y (by simp [hy]))

/-- getD is unchanged by setting a different index. -/
theorem getD_set_ne {α : Type} (l : List α) (i j : ℕ) (x d : α)
    (h : j ≠ i) : (l.set i x).getD j d = l.getD j d := by
  induction l generalizing i j with
  | nil => rfl
  | cons y ys ih =>
      cases i with
      | zero =>
          cases j with
          | zero => exact absurd rfl h
          | succ m => rfl
      | succ n =>
          cases j with
          | zero => rfl
          | succ m => simpa [List.getD] using ih n m (fun hnm => h (by simp [hnm]))

/-- Every element of List.range' s k is at least s. -/
theorem range'_le_mem (k s i : ℕ) (h : i ∈ List.range' s k) : s ≤ i := by
  induction k generalizing s with
  | zero => simp [List.range'] at h
  | succ m ih =>
      rw [List.range'] at h
      rcases List.mem_cons.mp h with h1 | h2
      · exact h1 ▸ Nat.le_refl s
      · exact Nat.le_of_succ_le (ih (s + 1) h2)

/-- getD at 0 of a nonempty replicate is the replicated value. -/
theorem getD_replicate_zero {α : Type} (n : ℕ) (v d : α) (h : 0 < n) :
    (List.replicate n v).getD 0 d = v := by
  cases n with
  | zero => exact absurd h (by simp)
  | succ m => rfl

/-- Folding btStep never changes the number of ledger rows. -/
theorem btFold_rows_length (insts : List Inst) (ws : List ℚ) (l : List ℕ)
    (s : BTState) :
    (l.foldl (btStep insts ws) s).rows.length = s.rows.length := by
  induction l generalizing s with
  | nil => rfl
  | cons i t ih =>
      rw [List.foldl_cons, ih]
      exact List.length_set s.rows i _

/-- The backtester produces exactly btRows ledger rows. -/
theorem backtester_rows_length (insts : List Inst) (c0 : ℚ)
    (wOpt : Option (List ℚ)) :
    (backtester insts c0 wOpt).rows.length = btRows insts := by
  simp only [backtester]
  rw [btFold_rows_length]
  exact List.length_replicate _ _

/-- Invariant preservation for the outer backtest loop: the ledger
identity holds for every row, and row 0 keeps the initial values, across
any fold of btStep over indices that are all positive. -/
theorem btFold_ledger (insts : List Inst) (ws : List ℚ) (c0 : ℚ)
    (l : List ℕ) (hl : ∀ i ∈ l, 0 < i) (s : BTState)
    (h1 : ∀ r ∈ s.rows, r.total = r.cash + r.holdings)
    (h2 : s.rows.getD 0 ⟨0, 0, 0⟩ = ⟨0, c0, c0⟩) :
    (∀ r ∈ (l.foldl (btStep insts ws) s).rows, r.total = r.cash + r.holdings)
    ∧ (l.foldl (btStep insts ws) s).rows.getD 0 ⟨0, 0, 0⟩ = ⟨0, c0, c0⟩ := by
  induction l generalizing s with
  | nil => exact ⟨h1, h2⟩
  | cons i t ih =>
      have hi : 0 < i := hl i (by simp)
      refine ih (fun j hj => hl j (by simp [hj])) (btStep insts ws s i) ?_ ?_
      · intro r hr
        rcases List.mem_or_eq_of_mem_set hr with hmem | heq
        · exact h1 r hmem
        · subst heq; rfl
      · exact (getD_set_ne s.rows i 0 _ _ (Nat.ne_of_lt hi)).trans h2

/-- Claim C1: in every run of the backtester, every ledger row satisfies
Total = Cash + Holdings exactly, and the initial row is
(Holdings, Cash, Total) = (0, initial_cash, initial_cash). -/
theorem thm_ledger_identity (insts : List Inst) (c0 : ℚ)
    (wOpt : Option (List ℚ)) (r : Row)
    (hr : r ∈ (backtester insts c0 wOpt).rows) :
    r.total = r.cash + r.holdings
    ∧ (backtester insts c0 wOpt).rows.getD 0 ⟨0, 0, 0⟩ = ⟨0, c0, c0⟩ := by
  have hpos : 0 < (backtester insts c0 wOpt).rows.length :=
    List.length_pos_of_mem hr
  have base1 : ∀ x ∈ List.replicate (btRows insts) (⟨0, c0, c0⟩ : Row),
      x.total = x.cash + x.holdings := by
    intro x hx
    rw [List.eq_of_mem_replicate hx]
    show c0 = c0 + 0
    rw [add_zero]
  have hn : 0 < btRows insts := by
    have hlen := backtester_rows_length insts c0 wOpt
    omega
  have base2 : (List.replicate (btRows insts) (⟨0, c0, c0⟩ : Row)).getD 0
      ⟨0, 0, 0⟩ = ⟨0, c0, c0⟩ := getD_replicate_zero _ _ _ hn
  have main := btFold_ledger insts
      (wOpt.getD (List.replicate insts.length (1 / (insts.length : ℚ)))) c0
      (List.range' 1 (btRows insts - 1))
      (fun i hi => Nat.lt_of_lt_of_le Nat.zero_lt_one (range'_le_mem _ _ _ hi))
      ⟨List.replicate (btRows insts) ⟨0, c0, c0⟩,
       List.replicate insts.length 0, []⟩ base1 base2
  exact ⟨main.1 r hr, main.2⟩

/-- Witness for C1 at a concrete one-instrument run: the row written by
the BUY step and the initial row both satisfy the identity. -/
theorem wit_ledger_identity :
    (⟨100, 0, 100⟩ : Row).total = (⟨100, 0, 100⟩ : Row).cash + (⟨100, 0, 100⟩ : Row).holdings
    ∧ (backtester [⟨"A", [1, 1], [0, 2]⟩] 100 (some [1])).rows.getD 0 ⟨0, 0, 0⟩
      = ⟨0, 100, 100⟩ :=
  thm_ledger_identity [⟨"A", [1, 1], [0, 2]⟩] 100 (some [1]) ⟨100, 0, 100⟩
    (by with_unfolding_all decide)

/-- Claim C2 counterexample: two instruments, both with a BUY event at
step 1, weights 1/2 each, initial cash 100.  Cash at the start of the
step is 100 (row 0), so the claim says instrument B is allocated
100 * 1/2 = 50; but the code deducts A's spend from the running cash
inside the loop, so B is allocated (100 - 50) * 1/2 = 25. -/
theorem cex_buy_allocation :
    ((backtester [⟨"A", [1, 1], [0, 2]⟩, ⟨"B", [1, 1], [0, 2]⟩] 100
        (some [1/2, 1/2])).rows.getD 0 ⟨0, 0, 0⟩).cash = 100
    ∧ ((backtester [⟨"A", [1, 1], [0, 2]⟩, ⟨"B", [1, 1], [0, 2]⟩] 100
        (some [1/2, 1/2])).trades.getD 1 defaultTrade).ticker = "B"
    ∧ ((backtester [⟨"A", [1, 1], [0, 2]⟩, ⟨"B", [1, 1], [0, 2]⟩] 100
        (some [1/2, 1/2])).trades.getD 1 defaultTrade).action = TradeAction.buy
    ∧ ((backtester [⟨"A", [1, 1], [0, 2]⟩, ⟨"B", [1, 1], [0, 2]⟩] 100
        (some [1/2, 1/2])).trades.getD 1 defaultTrade).value = 25
    ∧ (25 : ℚ) ≠ 100 * (1/2) := by
  refine ⟨?_, ?_, ?_, ?_, ?_⟩ <;> with_unfolding_all decide

/-- Claim C2 amended: within one step each BUY is allocated
running_cash * weight, where the running cash starts at the cash of the
previous row and is updated by the trades already processed in
iteration order; for a step whose events are all BUYs the resulting
(cash, holdings) pair — hence the ledger row — is nevertheless the same
for both iteration orders of two instruments, and the second BUY is
allocated (cash - cash * w_first) * w_second. -/
theorem thm_buy_allocation (c w1 w2 p1 p2 s1 s2 : ℚ)
    (hp1 : p1 ≠ 0) (hp2 : p2 ≠ 0) :
    (([((⟨"A", [p1], [2]⟩ : Inst), w1), ((⟨"B", [p2], [2]⟩ : Inst), w2)].zip
        [s1, s2]).foldl (stepInst 0) ⟨c, 0, [], []⟩).cash
      = (([((⟨"B", [p2], [2]⟩ : Inst), w2), ((⟨"A", [p1], [2]⟩ : Inst), w1)].zip
        [s2, s1]).foldl (stepInst 0) ⟨c, 0, [], []⟩).cash
    ∧ (([((⟨"A", [p1], [2]⟩ : Inst), w1), ((⟨"B", [p2], [2]⟩ : Inst), w2)].zip
        [s1, s2]).foldl (stepInst 0) ⟨c, 0, [], []⟩).holdings
      = (([((⟨"B", [p2], [2]⟩ : Inst), w2), ((⟨"A", [p1], [2]⟩ : Inst), w1)].zip
        [s2, s1]).foldl (stepInst 0) ⟨c, 0, [], []⟩).holdings
    ∧ ((([((⟨"A", [p1], [2]⟩ : Inst), w1), ((⟨"B", [p2], [2]⟩ : Inst), w2)].zip
        [s1, s2]).foldl (stepInst 0) ⟨c, 0, [], []⟩).trades.getD 1
        defaultTrade).value = (c - c * w1) * w2 := by
  have e1 : ∀ x : ℚ, x / p1 * p1 = x := fun x => div_mul_cancel₀ x hp1
  have e2 : ∀ x : ℚ, x / p2 * p2 = x := fun x => div_mul_cancel₀ x hp2
  simp only [List.zip, List.zipWith, List.foldl_cons, List.foldl_nil, stepInst,
    List.getD, List.get?, Option.getD, reduceIte, e1, e2, List.nil_append,
    List.cons_append, List.append_nil]
  refine ⟨by ring, by ring, by trivial⟩

/-- Witness for C2 amended at c = 100, w1 = w2 = 1/2, unit prices. -/
theorem wit_buy_allocation :
    (([((⟨"A", [1], [2]⟩ : Inst), (1:ℚ)/2), ((⟨"B", [1], [2]⟩ : Inst), (1:ℚ)/2)].zip
        [(0:ℚ), 0]).foldl (stepInst 0) ⟨100, 0, [], []⟩).cash
      = (([((⟨"B", [1], [2]⟩ : Inst), (1:ℚ)/2), ((⟨"A", [1], [2]⟩ : Inst), (1:ℚ)/2)].zip
        [(0:ℚ), 0]).foldl (stepInst 0) ⟨100, 0, [], []⟩).cash
    ∧ (([((⟨"A", [1], [2]⟩ : Inst), (1:ℚ)/2), ((⟨"B", [1], [2]⟩ : Inst), (1:ℚ)/2)].zip
        [(0:ℚ), 0]).foldl (stepInst 0) ⟨100, 0, [], []⟩).holdings
      = (([((⟨"B", [1], [2]⟩ : Inst), (1:ℚ)/2), ((⟨"A", [1], [2]⟩ : Inst), (1:ℚ)/2)].zip
        [(0:ℚ), 0]).foldl (stepInst 0) ⟨100, 0, [], []⟩).holdings
    ∧ ((([((⟨"A", [1], [2]⟩ : Inst), (1:ℚ)/2), ((⟨"B", [1], [2]⟩ : Inst), (1:ℚ)/2)].zip
        [(0:ℚ), 0]).foldl (stepInst 0) ⟨100, 0, [], []⟩).trades.getD 1
        defaultTrade).value = (100 - 100 * ((1:ℚ)/2)) * ((1:ℚ)/2) :=
  thm_buy_allocation 100 (1/2) (1/2) 1 1 0 0 (by norm_num) (by norm_num)

/-- Every member of a list of non-negative rationals is at most the sum. -/
theorem mem_le_sum_of_nonneg (l : List ℚ) (hl : ∀ x ∈ l, 0 ≤ x)
    (x : ℚ) (hx : x ∈ l) : x ≤ l.sum := by
  induction l with
  | nil => simp at hx
  | cons y t ih =>
      have ht : 0 ≤ t.sum := List.sum_nonneg (fun z hz => hl z (by simp [hz]))
      rw [List.sum_cons]
      rcases List.mem_cons.mp hx with h | h
      · subst h; linarith
      · have := ih (fun z hz => hl z (by simp [hz])) h
        have hy := hl y (by simp)
        linarith

/-- getD beyond the length of the list falls back to the default. -/
theorem getD_of_length_le {α : Type} (l : List α) (i : ℕ) (d : α)
    (h : l.length ≤ i) : l.getD i d = d := by
  induction l generalizing i with
  | nil => rfl
  | cons x xs ih =>
      cases i with
      | zero => simp at h
      | succ n => simpa [List.getD] using ih n (by simpa using h)

/-- The per-instrument loop body keeps cash and all share counts
non-negative, provided the weight is within [0,1], the incoming share
count is non-negative, and the close price read by a BUY or SELL event
is positive (which keeps the proof off the zero-close path where the
source's float arithmetic would produce NaN). -/
theorem stepInst_nonneg (i : ℕ) (a : StepAcc) (x : (Inst × ℚ) × ℚ)
    (hc : 0 ≤ a.cash) (hsh : ∀ y ∈ a.newShares, 0 ≤ y)
    (hw0 : 0 ≤ x.1.2) (hw1 : x.1.2 ≤ 1)
    (hp : x.1.1.pos.getD i 0 = 2 ∨ x.1.1.pos.getD i 0 = -2 →
      0 < x.1.1.close.getD i 0)
    (hx : 0 ≤ x.2) :
    0 ≤ (stepInst i a x).cash ∧ ∀ y ∈ (stepInst i a x).newShares, 0 ≤ y := by
  obtain ⟨⟨inst, w⟩, sh⟩ := x
  simp only [stepInst]
  split_ifs with h2 hm2
  · have hplt : 0 < inst.close.getD i 0 := hp (Or.inl h2)
    constructor
    · show 0 ≤ a.cash - a.cash * w / inst.close.getD i 0 * inst.close.getD i 0
      rw [div_mul_cancel₀ _ hplt.ne.symm]
      have : a.cash * w ≤ a.cash := mul_le_of_le_one_right hc hw1
      linarith
    · intro y hy
      rcases List.mem_append.mp hy with hold | hnew
      · exact hsh y hold
      · rw [List.mem_singleton.mp hnew]
        exact div_nonneg (mul_nonneg hc hw0) hplt.le
  · have hplt : 0 < inst.close.getD i 0 := hp (Or.inr hm2)
    constructor
    · show 0 ≤ a.cash + sh * inst.close.getD i 0
      have := mul_nonneg hx hplt.le
      linarith
    · intro y hy
      rcases List.mem_append.mp hy with hold | hnew
      · exact hsh y hold
      · rw [List.mem_singleton.mp hnew]
  · constructor
    · exact hc
    · intro y hy
      rcases List.mem_append.mp hy with hold | hnew
      · exact hsh y hold
      · rw [List.mem_singleton.mp hnew]; exact hx

/-- Folding the per-instrument loop keeps cash and share counts
non-negative. -/
theorem stepFold_nonneg (i : ℕ) (l : List ((Inst × ℚ) × ℚ)) (a : StepAcc)
    (hc : 0 ≤ a.cash) (hsh : ∀ y ∈ a.newShares, 0 ≤ y)
    (hl : ∀ x ∈ l, 0 ≤ x.1.2 ∧ x.1.2 ≤ 1
      ∧ (x.1.1.pos.getD i 0 = 2 ∨ x.1.1.pos.getD i 0 = -2 →
          0 < x.1.1.close.getD i 0)
      ∧ 0 ≤ x.2) :
    0 ≤ (l.foldl (stepInst i) a).cash
    ∧ ∀ y ∈ (l.foldl (stepInst i) a).newShares, 0 ≤ y := by
  induction l generalizing a with
  | nil => exact ⟨hc, hsh⟩
  | cons x t ih =>
      obtain ⟨h1, h2, h3, h4⟩ := hl x (List.mem_cons_self x t)
      have step := stepInst_nonneg i a x hc hsh h1 h2 h3 h4
      exact ih (stepInst i a x) step.1 step.2
        (fun y hy => hl y (List.mem_cons_of_mem x hy))

/-- One backtest timestep keeps every ledger Cash entry and every share
count non-negative, for weights in [0,1], positive close prices, and
Position columns no longer than the Close columns (so a BUY/SELL event
always reads an in-range, hence positive, close). -/
theorem btStep_nonneg (insts : List Inst) (ws : List ℚ)
    (hws : ∀ w ∈ ws, 0 ≤ w ∧ w ≤ 1)
    (hcl : ∀ inst ∈ insts, ∀ p ∈ inst.close, 0 < p)
    (hlen : ∀ inst ∈ insts, inst.pos.length ≤ inst.close.length)
    (s : BTState) (i : ℕ)
    (h1 : ∀ r ∈ s.rows, 0 ≤ r.cash) (h2 : ∀ y ∈ s.shares, 0 ≤ y) :
    (∀ r ∈ (btStep insts ws s i).rows, 0 ≤ r.cash)
    ∧ ∀ y ∈ (btStep insts ws s i).shares, 0 ≤ y := by
  have hprev : 0 ≤ (s.rows.getD (i - 1) ⟨0, 0, 0⟩).cash :=
    getD_pred (fun r => 0 ≤ r.cash) s.rows (i - 1) _ h1 (le_refl 0)
  have helem : ∀ x ∈ (insts.zip ws).zip s.shares,
      0 ≤ x.1.2 ∧ x.1.2 ≤ 1
      ∧ (x.1.1.pos.getD i 0 = 2 ∨ x.1.1.pos.getD i 0 = -2 →
          0 < x.1.1.close.getD i 0)
      ∧ 0 ≤ x.2 := by
    intro x hx
    obtain ⟨hmem1, hmem2⟩ := List.of_mem_zip hx
    obtain ⟨hmi, hmw⟩ := List.of_mem_zip hmem1
    obtain ⟨hw0, hw1⟩ := hws x.1.2 hmw
    refine ⟨hw0, hw1, ?_, h2 x.2 hmem2⟩
    intro hev
    have hlt : i < x.1.1.pos.length := by
      by_contra hge
      push_neg at hge
      rw [getD_of_length_le _ _ _ hge] at hev
      rcases hev with h | h <;> omega
    have hlt2 : i < x.1.1.close.length := Nat.lt_of_lt_of_le hlt (hlen x.1.1 hmi)
    have hmem : x.1.1.close.getD i 0 ∈ x.1.1.close := by
      rw [List.getD_eq_getElem _ _ hlt2]
      exact List.getElem_mem hlt2
    exact hcl x.1.1 hmi _ hmem
  have main := stepFold_nonneg i ((insts.zip ws).zip s.shares)
      ⟨(s.rows.getD (i - 1) ⟨0, 0, 0⟩).cash, 0, [], s.trades⟩
      hprev (by intro y hy; simp at hy) helem
  constructor
  · intro r hr
    rcases List.mem_or_eq_of_mem_set hr with hmem | heq
    · exact h1 r hmem
    · rw [heq]
      exact main.1
  · exact main.2

/-- Invariant preservation over the whole backtest loop. -/
theorem btFold_nonneg (insts : List Inst) (ws : List ℚ)
    (hws : ∀ w ∈ ws, 0 ≤ w ∧ w ≤ 1)
    (hcl : ∀ inst ∈ insts, ∀ p ∈ inst.close, 0 < p)
    (hlen : ∀ inst ∈ insts, inst.pos.length ≤ inst.close.length)
    (l : List ℕ) (s : BTState)
    (h1 : ∀ r ∈ s.rows, 0 ≤ r.cash) (h2 : ∀ y ∈ s.shares, 0 ≤ y) :
    (∀ r ∈ (l.foldl (btStep insts ws) s).rows, 0 ≤ r.cash)
    ∧ ∀ y ∈ (l.foldl (btStep insts ws) s).shares, 0 ≤ y := by
  induction l generalizing s with
  | nil => exact ⟨h1, h2⟩
  | cons i t ih =>
      have step := btStep_nonneg insts ws hws hcl hlen s i h1 h2
      exact ih (btStep insts ws s i) step.1 step.2

/-- Claim C3 amended: with non-negative weights summing to 1, strictly
positive close prices, and Position columns no longer than the Close
columns (any real run has them equal), every Cash entry of the ledger
is non-negative — each BUY spends a fraction of the running cash, and a
SELL only adds to it.  (The claim's stronger bound, that the BUYs of a
step spend at most the cash at the start of the step, fails: a SELL
earlier in the same step's iteration enlarges the pool, see the
counterexample.) -/
theorem thm_cash_nonneg (insts : List Inst) (c0 : ℚ) (ws : List ℚ)
    (h0 : 0 ≤ c0) (hw : ∀ x ∈ ws, 0 ≤ x) (hsum : ws.sum = 1)
    (hcl : ∀ inst ∈ insts, ∀ p ∈ inst.close, 0 < p)
    (hlen : ∀ inst ∈ insts, inst.pos.length ≤ inst.close.length) :
    ∀ r ∈ (backtester insts c0 (some ws)).rows, 0 ≤ r.cash := by
  have hws : ∀ w ∈ ws, 0 ≤ w ∧ w ≤ 1 := fun w hw2 =>
    ⟨hw w hw2, hsum ▸ mem_le_sum_of_nonneg ws hw w hw2⟩
  have base1 : ∀ r ∈ List.replicate (btRows insts) (⟨0, c0, c0⟩ : Row),
      0 ≤ r.cash := by
    intro r hr
    rw [List.eq_of_mem_replicate hr]
    exact h0
  have base2 : ∀ y ∈ List.replicate insts.length (0 : ℚ), 0 ≤ y := by
    intro y hy
    rw [List.eq_of_mem_replicate hy]
  have main := btFold_nonneg insts ws hws hcl hlen
      (List.range' 1 (btRows insts - 1))
      ⟨List.replicate (btRows insts) ⟨0, c0, c0⟩,
       List.replicate insts.length 0, []⟩ base1 base2
  intro r hr
  refine main.1 r ?_
  simpa [backtester] using hr

/-- Witness for C3 amended: the two-instrument scenario with weights
9/10 and 1/10 satisfies the hypotheses (all closes positive, columns of
equal length), and the Cash written at step 2 (the row (19, 171, 190))
is non-negative. -/
theorem wit_cash_nonneg : 0 ≤ (⟨19, 171, 190⟩ : Row).cash :=
  thm_cash_nonneg [⟨"A", [1, 1, 2], [0, 2, -2]⟩, ⟨"B", [1, 1, 1], [0, 0, 2]⟩]
    100 [9/10, 1/10] (by norm_num)
    (by with_unfolding_all decide) (by with_unfolding_all decide)
    (by with_unfolding_all decide) (by with_unfolding_all decide)
    ⟨19, 171, 190⟩ (by with_unfolding_all decide)

/-- Claim C3 counterexample: weights (9/10, 1/10) are non-negative and
sum to 1; at step 1 instrument A buys (cash 100 -> 10, 90 shares); at
step 2 A's SELL at price 2 adds 180 of proceeds to the running cash
before B's BUY is processed, so the BUY spends (10 + 180) * 1/10 = 19,
which exceeds the 10 of cash available at the start of the step. -/
theorem cex_buy_spend :
    ([(9:ℚ)/10, 1/10].sum = 1 ∧ 0 ≤ (9:ℚ)/10 ∧ 0 ≤ (1:ℚ)/10)
    ∧ ((backtester [⟨"A", [1, 1, 2], [0, 2, -2]⟩, ⟨"B", [1, 1, 1], [0, 0, 2]⟩]
        100 (some [9/10, 1/10])).rows.getD 1 ⟨0, 0, 0⟩).cash = 10
    ∧ (((backtester [⟨"A", [1, 1, 2], [0, 2, -2]⟩, ⟨"B", [1, 1, 1], [0, 0, 2]⟩]
        100 (some [9/10, 1/10])).trades.filter
        (fun t => decide (t.date = 2 ∧ t.action = TradeAction.buy))).map
        (fun t => t.value)).sum = 19
    ∧ ¬ ((19:ℚ) ≤ 10) := by
  refine ⟨?_, ?_, ?_, ?_⟩ <;> with_unfolding_all decide

/-- Claim C9 amended: the simulator's inner loop appends exactly one
TradeRecord for every instrument whose Position at the step is 2 or -2,
unconditionally — the Risk Manager's validate_trade is never consulted
by the backtester. -/
theorem thm_trade_record (i : ℕ) (l : List ((Inst × ℚ) × ℚ)) (a : StepAcc) :
    (l.foldl (stepInst i) a).trades.length
      = a.trades.length
        + l.countP (fun x => decide (x.1.1.pos.getD i 0 = 2)
            || decide (x.1.1.pos.getD i 0 = -2)) := by
  induction l generalizing a with
  | nil => simp
  | cons x t ih =>
      rw [List.foldl_cons, ih, List.countP_cons]
      by_cases h2 : x.1.1.pos[i]?.getD 0 = 2
      · simp [stepInst, List.getD, h2]
        omega
      · by_cases hm2 : x.1.1.pos[i]?.getD 0 = -2
        · simp [stepInst, List.getD, h2, hm2]
          omega
        · simp [stepInst, List.getD, h2, hm2]

/-- Claim C9 counterexample: a single instrument whose only event is a
SELL at step 1 while zero shares are held.  The simulator appends a
TradeRecord with shares = 0 and value = 0 — yet validate_trade rejects
this very trade (value 0 is below the minimum trade value of 10), for
the cash (100) and positions ({A: 0}) in force at that step. -/
theorem cex_trade_record :
    (backtester [⟨"A", [1, 1], [0, -2]⟩] 100 (some [1])).trades
      = [⟨1, "A", TradeAction.sell, 0, 1, 0⟩]
    ∧ (validate_trade "A" 0 1 TradeType.sell 100 [("A", 0)]
        Config.MAX_POSITION_SIZE).1 = false
    ∧ ((0:ℚ) < 10) := by
  refine ⟨?_, ?_, ?_⟩ <;> with_unfolding_all decide

/-- Claim C5 counterexample: on closes [1,2,3] with windows (1,2) the
Position entry at index 0 is NaN (none) — Signal.diff() has no prior
value there and neither masked assignment touches NaN — not the
no-action value 0. -/
theorem cex_event_head :
    (smaPosition [1, 2, 3] 1 2).head? = some none
    ∧ ¬ ((smaPosition [1, 2, 3] 1 2).head? = some (some 0)) := by
  constructor <;> with_unfolding_all decide

/-- head? of a mapped list. -/
theorem head?_map {α β : Type} (f : α → β) (l : List α) :
    (l.map f).head? = l.head?.map f := by
  cases l <;> rfl

/-- The Position column of any nonempty Signal column starts with NaN. -/
theorem makePosition_head (s : List Int) (hs : s ≠ []) :
    (makePosition s).head? = some none := by
  obtain ⟨m, hm⟩ : ∃ m, s.length = m + 1 := by
    cases hl : s.length with
    | zero => exact absurd (List.eq_nil_of_length_eq_zero hl) hs
    | succ k => exact ⟨k, rfl⟩
  have hdiff : (diffList s).head? = some none := by
    show ((List.range s.length).map _).head? = some none
    rw [hm, List.range_succ_eq_map]
    rfl
  show ((diffList s).map _ |>.map _).head? = some none
  rw [head?_map, head?_map, hdiff]
  rfl

/-- Claim C5 amended: for every strategy the Position (event) entry at
index 0 is NaN (none), never a trade code: the shared derivation starts
from Signal.diff(), whose first entry has no prior value.  Stated for
the generic derivation and for the SMA and RSI signal columns. -/
theorem thm_event_head (s : List Int) (hs : s ≠ []) (xs : List ℚ)
    (hxs : xs ≠ []) (sw lw w : ℕ) (ob os : ℚ) :
    (makePosition s).head? = some none
    ∧ (smaPosition xs sw lw).head? = some none
    ∧ (rsiPosition xs w ob os).head? = some none := by
  refine ⟨makePosition_head s hs, makePosition_head _ ?_, makePosition_head _ ?_⟩
  · have hlen : (smaSignals xs sw lw).length = xs.length := by
      simp [smaSignals]
    intro hnil
    rw [hnil] at hlen
    exact hxs (List.eq_nil_of_length_eq_zero hlen.symm)
  · have hlen : (rsiSignals xs w ob os).length = xs.length := by
      simp [rsiSignals]
    intro hnil
    rw [hnil] at hlen
    exact hxs (List.eq_nil_of_length_eq_zero hlen.symm)

/-- Witness for C5 amended on concrete data. -/
theorem wit_event_head :
    (makePosition [0]).head? = some none
    ∧ (smaPosition [1] 1 2).head? = some none
    ∧ (rsiPosition [1] 14 70 30).head? = some none :=
  thm_event_head [0] (by simp) [1] (by simp) 1 2 14 70 30

/-- getD through a map whose function fixes the fallback. -/
theorem getD_map_fix {α β : Type} (f : α → β) (l : List α) (i : ℕ)
    (d : α) (e : β) (he : f d = e) : (l.map f).getD i e = f (l.getD i d) := by
  induction l generalizing i with
  | nil => simpa [List.getD] using he.symm
  | cons x xs ih =>
      cases i with
      | zero => rfl
      | succ n => simpa [List.getD] using ih n

/-- getD on a mapped range below the bound. -/
theorem getD_map_range {α : Type} (g : ℕ → α) (n i : ℕ) (h : i < n)
    (d : α) : ((List.range n).map g).getD i d = g i := by
  have hlen : i < ((List.range n).map g).length := by simpa using h
  rw [List.getD_eq_getElem _ _ hlen, List.getElem_map, List.getElem_range]

/-- The Position entry at a positive index is the diffed Signal pushed
through the two masked assignments. -/
theorem makePosition_getD (s : List Int) (i : ℕ) (h0 : 0 < i)
    (hi : i < s.length) :
    (makePosition s).getD i none
      = some (if (if s.getD i 0 - s.getD (i - 1) 0 = 1 then 2
                  else s.getD i 0 - s.getD (i - 1) 0) = -1 then -2
              else (if s.getD i 0 - s.getD (i - 1) 0 = 1 then 2
                    else s.getD i 0 - s.getD (i - 1) 0)) := by
  unfold makePosition maskSell maskBuy
  rw [getD_map_fix _ _ _ none none rfl, getD_map_fix _ _ _ none none rfl]
  unfold diffList
  rw [getD_map_range _ _ _ hi, if_neg (Nat.pos_iff_ne_zero.mp h0)]
  rfl

/-- Claim C6: for a Signal column with values in {-1,0,1}, at every
index t > 0 the Position (event) entry equals the delta
Signal[t] - Signal[t-1] mapped by: 0 -> 0, positive (1 or 2) -> 2,
negative (-1 or -2) -> -2.  Deltas of magnitude 1 are remapped by the
masked assignments and deltas of magnitude 2 already carry the trade
code of that sign. -/
theorem thm_event_delta (s : List Int)
    (hs : ∀ x ∈ s, x = -1 ∨ x = 0 ∨ x = 1) (i : ℕ) (h0 : 0 < i)
    (hi : i < s.length) :
    (makePosition s).getD i none
      = some (if s.getD i 0 - s.getD (i - 1) 0 = 0 then 0
              else if 0 < s.getD i 0 - s.getD (i - 1) 0 then 2 else -2) := by
  rw [makePosition_getD s i h0 hi]
  have ha : s.getD i 0 ∈ s := by
    rw [List.getD_eq_getElem _ _ hi]
    exact List.getElem_mem hi
  have hb : s.getD (i - 1) 0 ∈ s := by
    have hi1 : i - 1 < s.length := Nat.lt_of_le_of_lt (Nat.sub_le i 1) hi
    rw [List.getD_eq_getElem _ _ hi1]
    exact List.getElem_mem hi1
  rcases hs _ ha with h | h | h <;> rcases hs _ hb with h2 | h2 | h2 <;>
    rw [h, h2] <;> decide

/-- Witness for C6 at the Signal column [0, 1] and index 1: the delta
+1 is mapped to the BUY code 2. -/
theorem wit_event_delta : (makePosition [0, 1]).getD 1 none = some 2 := by
  have h := thm_event_delta [0, 1] (by decide) 1 (by decide) (by decide)
  simpa using h

/-- Claim C7 counterexample: on the constant closes [10,10,10] with
window 2, the rolling average loss at index 2 is 0 and the rolling
average gain is also 0, so rs = 0/0 = NaN and the RSI entry is NaN —
the undefined value propagates instead of yielding 100. -/
theorem cex_rsi_zero_loss :
    rollMean (losses [10, 10, 10]) 2 2 = some 0
    ∧ rollMean (gains [10, 10, 10]) 2 2 = some 0
    ∧ (rsiCol [10, 10, 10] 2).getD 2 RFloat.nan = RFloat.nan
    ∧ ¬ ((rsiCol [10, 10, 10] 2).getD 2 RFloat.nan = RFloat.fin 100) := by
  refine ⟨?_, ?_, ?_, ?_⟩ <;> with_unfolding_all decide

/-- Claim C7 amended: whenever the rolling average loss is zero while
the rolling average gain is positive, the RSI value is exactly 100
(rs = gain/0 = +inf, 100/(1 + inf) = 0); when the average gain is also
zero, rs = 0/0 = NaN and the RSI is NaN instead. -/
theorem thm_rsi_zero_loss (xs : List ℚ) (w i : ℕ) (g : ℚ)
    (hl : rollMean (losses xs) w i = some 0)
    (hg : rollMean (gains xs) w i = some g) (hgpos : 0 < g) :
    rsiAt xs w i = RFloat.fin 100 := by
  simp only [rsiAt, rsAt, hl, hg, ofOpt]
  simp [RFloat.div, RFloat.add, RFloat.sub, RFloat.neg, hgpos]

/-- Witness for C7 amended: closes [10,11,12], window 2, index 2 —
average loss 0, average gain 1, RSI exactly 100. -/
theorem wit_rsi_zero_loss : rsiAt [10, 11, 12] 2 2 = RFloat.fin 100 :=
  thm_rsi_zero_loss [10, 11, 12] 2 2 1 (by with_unfolding_all decide)
    (by with_unfolding_all decide) (by norm_num)

/-- Claim C8: calculate_metrics returns sharpe_ratio = 0 and
max_drawdown = 0 whenever the derived return series is empty or has
zero standard deviation (zero variance); and in the non-degenerate
branch the divisor of the sharpe computation — the std, i.e. the
variance carried by `computed` — is never zero, so the computation
never divides by zero for any input Total series. -/
theorem thm_metrics_degenerate (t : List ℚ) :
    ((returnsOf t = [] ∨ rVar (returnsOf t) = RFloat.fin 0) →
      calculate_metrics t = (SharpeVal.zero, RFloat.fin 0))
    ∧ ∀ m v, (calculate_metrics t).1 = SharpeVal.computed m v →
      v ≠ RFloat.fin 0 := by
  constructor
  · intro h
    simp only [calculate_metrics]
    rw [if_pos h]
  · intro m v hmv
    by_cases hcond : returnsOf t = [] ∨ rVar (returnsOf t) = RFloat.fin 0
    · rw [show calculate_metrics t = (SharpeVal.zero, RFloat.fin 0) by
        simp only [calculate_metrics]; rw [if_pos hcond]] at hmv
      exact absurd hmv (by simp)
    · simp only [calculate_metrics] at hmv
      rw [if_neg hcond] at hmv
      have hv : v = rVar (returnsOf t) := by
        have := congrArg (fun sv => match sv with
          | SharpeVal.computed _ v2 => v2
          | SharpeVal.zero => RFloat.nan) hmv
        simpa using this.symm
      rw [hv]
      intro hzero
      exact hcond (Or.inr hzero)

/-- Witness for C8: the constant Total series [10,10,10] has returns
[0,0] of zero variance and yields (0, 0); the two-row series [5,10]
has a single return, whose sample variance (hence std) is NaN — the
divisor is not zero. -/
theorem wit_metrics_degenerate :
    calculate_metrics [10, 10, 10] = (SharpeVal.zero, RFloat.fin 0)
    ∧ RFloat.nan ≠ RFloat.fin 0 :=
  ⟨(thm_metrics_degenerate [10, 10, 10]).1 (by with_unfolding_all decide),
   (thm_metrics_degenerate [5, 10]).2 (rMean (returnsOf [5, 10])) RFloat.nan
     (by with_unfolding_all decide)⟩

/-- Writes that all target address d leave any other address unchanged. -/
theorem foldl_set_getD (writes : List (Frame → Frame)) (h1 : List Frame)
    (d a : ℕ) (hne : a ≠ d) :
    (writes.foldl (fun hh wf => hh.set d (wf (hh.getD d []))) h1).getD a []
      = h1.getD a [] := by
  induction writes generalizing h1 with
  | nil => rfl
  | cons wf ws ih =>
      rw [List.foldl_cons, ih]
      exact getD_set_ne h1 d a _ [] hne

/-- getD stays within the left part of an append below its length. -/
theorem getD_append_left {α : Type} (l l2 : List α) (i : ℕ) (d : α)
    (h : i < l.length) : (l ++ l2).getD i d = l.getD i d := by
  induction l generalizing i with
  | nil => simp at h
  | cons x xs ih =>
      cases i with
      | zero => rfl
      | succ n =>
          simpa [List.getD] using ih n (by simpa using h)

/-- Claim C10: generate_signals never mutates the caller's frame and
returns a distinct object — for the generic copy-then-assign program
shape shared by all strategies (arbitrary column writes), and for the
SMA-crossover and RSI instances in particular. -/
theorem thm_no_mutation (writes : List (Frame → Frame)) (h : List Frame)
    (a : ℕ) (ha : a < h.length) (sw lw w : ℕ) (ob os : ℚ) :
    ((runStrategy writes h a).1.getD a [] = h.getD a []
      ∧ (runStrategy writes h a).2 ≠ a)
    ∧ ((smaProg sw lw h a).1.getD a [] = h.getD a []
      ∧ (smaProg sw lw h a).2 ≠ a)
    ∧ ((rsiProg w ob os h a).1.getD a [] = h.getD a []
      ∧ (rsiProg w ob os h a).2 ≠ a) := by
  have key : ∀ ws : List (Frame → Frame),
      (runStrategy ws h a).1.getD a [] = h.getD a []
      ∧ (runStrategy ws h a).2 ≠ a := by
    intro ws
    constructor
    · show (ws.foldl _ (h ++ [h.getD a []])).getD a [] = h.getD a []
      rw [foldl_set_getD ws _ h.length a (Nat.ne_of_lt ha)]
      exact getD_append_left h _ a [] ha
    · exact (Nat.ne_of_lt ha).symm
  exact ⟨key writes, key (smaWrites sw lw), key (rsiWrites w ob os)⟩

/-- Witness for C10: a one-frame heap holding a Close column; both
strategy programs leave it unchanged and return the fresh address 1. -/
theorem wit_no_mutation :
    ((runStrategy [] [[("Close", ColV.qcol [1, 2])]] 0).1.getD 0 []
        = [[("Close", ColV.qcol [1, 2])]].getD 0 []
      ∧ (runStrategy [] [[("Close", ColV.qcol [1, 2])]] 0).2 ≠ 0)
    ∧ ((smaProg 1 2 [[("Close", ColV.qcol [1, 2])]] 0).1.getD 0 []
        = [[("Close", ColV.qcol [1, 2])]].getD 0 []
      ∧ (smaProg 1 2 [[("Close", ColV.qcol [1, 2])]] 0).2 ≠ 0)
    ∧ ((rsiProg 14 70 30 [[("Close", ColV.qcol [1, 2])]] 0).1.getD 0 []
        = [[("Close", ColV.qcol [1, 2])]].getD 0 []
      ∧ (rsiProg 14 70 30 [[("Close", ColV.qcol [1, 2])]] 0).2 ≠ 0) :=
  thm_no_mutation [] [[("Close", ColV.qcol [1, 2])]] 0 (by simp) 1 2 14 70 30
